import Mathlib

/-!
Verification of the statement-parsing engine of the pdf-bill-parser
repository (src/bill_parser.py) against its natural-language specification.

Strings are embedded as `List Char`; page texts, table texts and table
lines are character lists.  Python regular expressions that occur in the
source are either literal strings (modelled by substring search), simple
anchored shape tests (modelled by direct character tests), or the three
table-extraction patterns (modelled by a small backtracking regex engine
over the exact pattern ASTs).  `pandas` data frames are modelled as lists
of records; operations that raise Python exceptions are modelled with
`Option` (`none` = raise).
-/

namespace BillParser

/-- Tests whether the first list is a prefix of the second (character lists). -/
def isPrefixCl : List Char → List Char → Bool
  | [], _ => true
  | _ :: _, [] => false
  | a :: as, b :: bs => a == b && isPrefixCl as bs

/-- Tests whether `pat` occurs as a contiguous substring of the second list.
Models Python `pat in s` and `re.search` for a pattern with no
metacharacters. -/
def containsSub (pat : List Char) : List Char → Bool
  | [] => isPrefixCl pat []
  | c :: rest => isPrefixCl pat (c :: rest) || containsSub pat rest

/-- Month abbreviation used by the `%b` date directive ("Jan" .. "Dec"). -/
def monthAbbrev (m : Nat) : List Char :=
  match m with
  | 1 => "Jan".toList
  | 2 => "Feb".toList
  | 3 => "Mar".toList
  | 4 => "Apr".toList
  | 5 => "May".toList
  | 6 => "Jun".toList
  | 7 => "Jul".toList
  | 8 => "Aug".toList
  | 9 => "Sep".toList
  | 10 => "Oct".toList
  | 11 => "Nov".toList
  | 12 => "Dec".toList
  | _ => []

/-- Raw transaction date of BillParserB, as printed on a statement:
month abbreviation, a space, then the day digits (format `%b %d`). -/
def mkDateB (m : Nat) (day : List Char) : List Char :=
  monthAbbrev m ++ ' ' :: day

/-- Raw transaction date of BillParserC: month abbreviation, a dot,
a space, then the day digits (format `%b. %d`). -/
def mkDateC (m : Nat) (day : List Char) : List Char :=
  monthAbbrev m ++ '.' :: ' ' :: day

/-- Year resolution of `BillParserB._pre_process_transactions`
(src/bill_parser.py lines 302-308): the year column is initialised to the
statement year; when the statement month is January, rows whose raw
transaction date contains the substring "Dec" get the prior year. -/
def resolveYearB (refMonth : Nat) (refYear : Int) (rawDate : List Char) : Int :=
  if refMonth == 1 && containsSub "Dec".toList rawDate then refYear - 1 else refYear

/-- Year resolution of `BillParserC._pre_process_transactions`
(src/bill_parser.py lines 398-404): same rule with substring "Dec.". -/
def resolveYearC (refMonth : Nat) (refYear : Int) (rawDate : List Char) : Int :=
  if refMonth == 1 && containsSub "Dec.".toList rawDate then refYear - 1 else refYear

/-- Row-wise application of BillParserB's year resolution to a whole
column of raw dates, as the pandas `.loc` assignment does. -/
def resolveYearsB (refMonth : Nat) (refYear : Int) (rawDates : List (List Char)) :
    List Int :=
  rawDates.map (resolveYearB refMonth refYear)

/-- Page classification labels (the `PAGE_TYPE_*` class constants). -/
inductive PageType where
  | summary
  | transactions
  | other
deriving DecidableEq

/-- Classification of one page (`BillParser._classify_pages`,
src/bill_parser.py lines 65-76): the label of the first rule, in rule-list
order, whose pattern matches the page text, and `other` when none matches.
Every pattern in the vendors' `PAGE_TYPE_REGEXES` dictionaries is a literal
string, so `re.search` amounts to substring search. -/
def classifyPage (rules : List (List Char × PageType)) (t : List Char) : PageType :=
  match rules with
  | [] => PageType.other
  | (pat, lbl) :: rest => if containsSub pat t then lbl else classifyPage rest t

/-- Grouping of a page list into the summary / transactions / other buckets,
as the classification loop's per-type appends build them up. -/
def classifyPages (rules : List (List Char × PageType)) :
    List (List Char) → List (List Char) × List (List Char) × List (List Char)
  | [] => ([], [], [])
  | p :: rest =>
    let r := classifyPages rules rest
    match classifyPage rules p with
    | PageType.summary => (p :: r.1, r.2.1, r.2.2)
    | PageType.transactions => (r.1, p :: r.2.1, r.2.2)
    | PageType.other => (r.1, r.2.1, p :: r.2.2)

/-- PAGE_TYPE_REGEXES of BillParserA, in dictionary insertion order. -/
def pageRulesA : List (List Char × PageType) :=
  [("due by".toList, PageType.summary),
   ("Transaction\nDate".toList, PageType.transactions)]

/-- PAGE_TYPE_REGEXES of BillParserB. -/
def pageRulesB : List (List Char × PageType) :=
  [("Balance from your last statement".toList, PageType.summary),
   ("TRANSACTION DESCRIPTION".toList, PageType.transactions)]

/-- PAGE_TYPE_REGEXES of BillParserC. -/
def pageRulesC : List (List Char × PageType) :=
  [("Summary of your account".toList, PageType.summary),
   ("Transactions since your last statement".toList, PageType.transactions)]

/-- PAGE_TYPE_REGEXES of BillParserD. -/
def pageRulesD : List (List Char × PageType) :=
  [("Your account at a glance".toList, PageType.summary),
   ("Transactions from".toList, PageType.transactions)]

/-- Character classes occurring in the three table-extraction patterns. -/
inductive CClass where
  | any
  | nonl
  | digit
deriving DecidableEq

/-- Membership test of a character class: `any` is `(?s:.)` (or `.` under
re.DOTALL), `nonl` is `.` without DOTALL, `digit` is `\d`. -/
def CClass.test : CClass → Char → Bool
  | CClass.any, _ => true
  | CClass.nonl, c => c != '\n'
  | CClass.digit, c => c.isDigit

/-- Regular-expression fragment sufficient for the table-extraction
patterns of the three parsers: literals, one-character classes, greedy and
lazy stars over a class, an optional literal character, sequencing and
alternation. -/
inductive RE where
  | lit (s : List Char)
  | one (c : CClass)
  | starG (c : CClass)
  | starL (c : CClass)
  | optc (ch : Char)
  | seq (a b : RE)
  | alt (a b : RE)

/-- Length of the maximal run of class-`c` characters at the head of `s`. -/
def countRun (c : CClass) : List Char → Nat
  | [] => 0
  | a :: rest => if c.test a then countRun c rest + 1 else 0

/-- Backtracking matcher: all remainders of `s` after a match of the
pattern anchored at the head of `s`, in the priority order a Python
backtracking engine explores them (greedy stars longest first, lazy stars
shortest first, alternatives left to right). -/
def reMatch : RE → List Char → List (List Char)
  | RE.lit p, s => if isPrefixCl p s then [s.drop p.length] else []
  | RE.one c, s =>
    match s with
    | [] => []
    | a :: rest => if c.test a then [rest] else []
  | RE.starG c, s => (List.range (countRun c s + 1)).reverse.map fun k => s.drop k
  | RE.starL c, s => (List.range (countRun c s + 1)).map fun k => s.drop k
  | RE.optc ch, s =>
    match s with
    | [] => [[]]
    | a :: rest => if a == ch then [rest, a :: rest] else [a :: rest]
  | RE.seq a b, s => (reMatch a s).flatMap (reMatch b)
  | RE.alt a b, s => reMatch a s ++ reMatch b s

/-- Helper of `firstSplit`: scan the body remainders in priority order for
the first one after which the tail pattern also matches. -/
def firstSplitAux (rest : RE) (s : List Char) :
    List (List Char) → Option (List Char × List Char)
  | [] => none
  | r1 :: more =>
    match reMatch rest r1 with
    | [] => firstSplitAux rest s more
    | r2 :: _ => some (s.take (s.length - r1.length), r2)

/-- Anchored match of a pattern `(body)rest` at the head of `s`: the
capture of group 1 and the remainder after the whole match, for the first
alternative in backtracking priority order, as Python's engine picks it. -/
def firstSplit (body rest : RE) (s : List Char) : Option (List Char × List Char) :=
  firstSplitAux rest s (reMatch body s)

/-- Python `re.findall` for a pattern of shape `(body)rest` (one capture
group): scan left to right, at each position try an anchored match; on
success emit the group and resume after the matched text.  `fuel` bounds
the scan; since every vendor pattern starts with a nonempty literal, every
match consumes at least one character and `s.length + 1` fuel is enough. -/
def findallAux (body rest : RE) : Nat → List Char → List (List Char)
  | 0, _ => []
  | fuel + 1, s =>
    match firstSplit body rest s with
    | some (g, r2) => g :: findallAux body rest fuel r2
    | none =>
      match s with
      | [] => []
      | _ :: tail => findallAux body rest fuel tail

/-- Python `re.findall` over a whole text for a `(body)rest` pattern. -/
def reFindall (body rest : RE) (s : List Char) : List (List Char) :=
  findallAux body rest (s.length + 1) s

/-- Group 1 of BillParserA's extraction pattern
`(Reward\nEarned\n(?s:.)*\n)New Balance – .*\n`
(src/bill_parser.py lines 150-152): note the greedy `(?s:.)*`. -/
def bodyA : RE :=
  RE.seq (RE.lit "Reward\nEarned\n".toList)
    (RE.seq (RE.starG CClass.any) (RE.lit "\n".toList))

/-- Uncaptured tail of BillParserA's extraction pattern. -/
def restA : RE :=
  RE.seq (RE.lit "New Balance – ".toList)
    (RE.seq (RE.starG CClass.nonl) (RE.lit "\n".toList))

/-- BillParserA's `_tabletext_extractor`. -/
def tabletextExtractorA (pagetext : List Char) : List (List Char) :=
  reFindall bodyA restA pagetext

/-- Group 1 of BillParserB's extraction pattern
`(TRANSACTION\nDATE\n.*?\.\d\d\n) ?Total` under re.DOTALL
(src/bill_parser.py lines 234-238): note the lazy `.*?`. -/
def bodyB : RE :=
  RE.seq (RE.lit "TRANSACTION\nDATE\n".toList)
    (RE.seq (RE.starL CClass.any)
      (RE.seq (RE.lit ".".toList)
        (RE.seq (RE.one CClass.digit)
          (RE.seq (RE.one CClass.digit) (RE.lit "\n".toList)))))

/-- Uncaptured tail of BillParserB's extraction pattern. -/
def restB : RE := RE.seq (RE.optc ' ') (RE.lit "Total".toList)

/-- BillParserB's `_tabletext_extractor`. -/
def tabletextExtractorB (pagetext : List Char) : List (List Char) :=
  reFindall bodyB restB pagetext

/-- Group 1 of BillParserC's extraction pattern
`(TRANS\nDATE\n(?s:.)*)(?:\(continued on next page\)|Subtotal for )`
(src/bill_parser.py lines 328-332): note the greedy `(?s:.)*`. -/
def bodyC : RE := RE.seq (RE.lit "TRANS\nDATE\n".toList) (RE.starG CClass.any)

/-- Uncaptured tail of BillParserC's extraction pattern. -/
def restC : RE :=
  RE.alt (RE.lit "(continued on next page)".toList)
    (RE.lit "Subtotal for ".toList)

/-- BillParserC's `_tabletext_extractor`. -/
def tabletextExtractorC (pagetext : List Char) : List (List Char) :=
  reFindall bodyC restC pagetext

/-- Transactions-page text carrying two complete start-marker/end-marker
pairs in BillParserA's layout. -/
def pageTwoTablesA : List Char :=
  "Reward\nEarned\nX\nNew Balance – 1\nReward\nEarned\nY\nNew Balance – 2\n".toList

/-- Transactions-page text carrying two complete start-marker/end-marker
pairs in BillParserB's layout. -/
def pageTwoTablesB : List Char :=
  "TRANSACTION\nDATE\nrow1\n1.23\nTotal x\nTRANSACTION\nDATE\nrow2\n4.56\nTotal y".toList

/-- Transactions-page text carrying two complete start-marker/end-marker
pairs in BillParserC's layout. -/
def pageTwoTablesC : List Char :=
  "TRANS\nDATE\nrowone\nSubtotal for a\nTRANS\nDATE\nrowtwo\nSubtotal for b".toList

/-- Helper of `splitLines`: `cur` holds the reversed current line. -/
def splitLinesAux (cur : List Char) : List Char → List (List Char)
  | [] => if cur.isEmpty then [] else [cur.reverse]
  | c :: rest =>
    if c = '\n' then cur.reverse :: splitLinesAux [] rest
    else splitLinesAux (c :: cur) rest

/-- Python `str.splitlines` restricted to the `'\n'` separator, the only
line break occurring in the extracted table texts: split at every newline;
a trailing newline does not produce a trailing empty line. -/
def splitLines (s : List Char) : List (List Char) := splitLinesAux [] s

/-- END_OF_ROW_TOKEN, the one-shot sentinel line re-inserted at the head
of the line list to trigger the end-of-row transition. -/
def eorToken : List Char := "EOR".toList

/-- Field states of BillParserA's transaction-row state machine. -/
inductive StateA where
  | reward_earned
  | amount
  | category
  | description
  | posted_date
  | transaction_date
  | end_of_row
deriving DecidableEq

/-- Row buffer of BillParserA: the Python field dict; `none` models an
absent key. -/
structure BufferA where
  reward_earned : Option (List Char) := none
  amount : Option (List Char) := none
  category : Option (List Char) := none
  description : Option (List Char) := none
  posted_date : Option (List Char) := none
  transaction_date : Option (List Char) := none
deriving DecidableEq

/-- Configuration of BillParserA's while loop: remaining lines, current
state, accumulating field buffer, and finalized rows (most recent first). -/
structure ConfigA where
  lines : List (List Char)
  state : StateA
  buffer : BufferA
  acc : List BufferA
deriving DecidableEq

/-- Shape test `re.match(r"\d{2}-\D{3}-\d{4}", line)` used by
BillParserA's description state to spot the posted-date line: two digits,
a dash, three non-digits, a dash and four digits at the start of the
line. -/
def matchPostedDateA (s : List Char) : Bool :=
  match s with
  | d1 :: d2 :: h1 :: c1 :: c2 :: c3 :: h2 :: y1 :: y2 :: y3 :: y4 :: _ =>
    d1.isDigit && d2.isDigit && h1 == '-' && !c1.isDigit && !c2.isDigit &&
      !c3.isDigit && h2 == '-' && y1.isDigit && y2.isDigit && y3.isDigit &&
      y4.isDigit
  | _ => false

/-- One iteration of BillParserA's while loop
(`BillParserA._parse_transaction_table`, src/bill_parser.py lines
174-211).  The loop guard makes the body run only on a nonempty line
list; on an empty one the configuration is returned unchanged. -/
def stepA (cfg : ConfigA) : ConfigA :=
  match cfg.lines with
  | [] => cfg
  | l :: rest =>
    match cfg.state with
    | StateA.reward_earned =>
      { cfg with
        lines := rest
        buffer := { cfg.buffer with reward_earned := some l }
        state := StateA.amount }
    | StateA.amount =>
      { cfg with
        lines := rest
        buffer := { cfg.buffer with amount := some l }
        state := StateA.category }
    | StateA.category =>
      if l ≠ "–".toList then
        { cfg with
          buffer := { cfg.buffer with category := some [] }
          state := StateA.description }
      else
        { cfg with
          lines := rest
          buffer := { cfg.buffer with category := some l }
          state := StateA.description }
    | StateA.description =>
      if matchPostedDateA l then
        { cfg with state := StateA.posted_date }
      else
        match cfg.buffer.description with
        | none =>
          { cfg with
            lines := rest
            buffer := { cfg.buffer with description := some l } }
        | some d =>
          { cfg with
            lines := rest
            buffer := { cfg.buffer with description := some (d ++ l) } }
    | StateA.posted_date =>
      { cfg with
        lines := rest
        buffer := { cfg.buffer with posted_date := some l }
        state := StateA.transaction_date }
    | StateA.transaction_date =>
      { cfg with
        lines := eorToken :: rest
        buffer := { cfg.buffer with transaction_date := some l }
        state := StateA.end_of_row }
    | StateA.end_of_row =>
      { cfg with
        lines := rest
        acc := cfg.buffer :: cfg.acc
        buffer := {}
        state := StateA.reward_earned }

/-- Rank of a BillParserA state: every loop iteration that does not
shorten the line list strictly lowers the rank. -/
def rankA : StateA → Nat
  | StateA.reward_earned => 6
  | StateA.amount => 5
  | StateA.category => 4
  | StateA.description => 3
  | StateA.posted_date => 2
  | StateA.transaction_date => 1
  | StateA.end_of_row => 0

/-- Termination measure of BillParserA's loop. -/
def measureA (cfg : ConfigA) : Nat := 7 * cfg.lines.length + rankA cfg.state

/-- Fuel-bounded iteration of `stepA`, stopping at the loop guard. -/
def iterA : Nat → ConfigA → ConfigA
  | 0, cfg => cfg
  | fuel + 1, cfg => if cfg.lines.isEmpty then cfg else iterA fuel (stepA cfg)

/-- Full run of BillParserA's while loop: `measureA` fuel always
suffices. -/
def runA (cfg : ConfigA) : ConfigA := iterA (measureA cfg) cfg

/-- `BillParserA._parse_transaction_table` on the line list of a table
text: drop the 9 fixed header lines, raise (`none`) when no line remains
(the unconditional `lines[0]` access would be an IndexError), skip 17
more lines when the extra-header signature matches, then run the state
machine; rows are returned in append order. -/
def parseLinesA (lines0 : List (List Char)) : Option (List BufferA) :=
  match lines0.drop 9 with
  | [] => none
  | l0 :: restL =>
    let lines1 :=
      if l0 = "Interest rates".toList then (l0 :: restL).drop 17 else l0 :: restL
    some (runA { lines := lines1, state := StateA.reward_earned, buffer := {}, acc := [] }).acc.reverse

/-- `BillParserA._parse_transaction_table` on a table text. -/
def parseTableA (tabletext : List Char) : Option (List BufferA) :=
  parseLinesA (splitLines tabletext)

/-- Field states of BillParserB's transaction-row state machine. -/
inductive StateB where
  | transaction_date
  | posting_date
  | transaction_description
  | amount
  | end_of_row
deriving DecidableEq

/-- Row buffer of BillParserB. -/
structure BufferB where
  transaction_date : Option (List Char) := none
  posting_date : Option (List Char) := none
  transaction_description : Option (List Char) := none
  amount : Option (List Char) := none
deriving DecidableEq

/-- Configuration of BillParserB's while loop. -/
structure ConfigB where
  lines : List (List Char)
  state : StateB
  buffer : BufferB
  acc : List BufferB
deriving DecidableEq

/-- Four-character amount shape `\d\.\d\d` at the head of the list. -/
def startsAmountRun : List Char → Bool
  | a :: b :: c :: d :: _ => a.isDigit && b == '.' && c.isDigit && d.isDigit
  | _ => false

/-- Shape test `re.match(r".*\d\.\d\d", line)` used by BillParserB's
description state to spot the amount line: since the leading `.*` may
match any newline-free prefix and table lines contain no newline, the
anchored pattern succeeds exactly when the line contains a
digit-dot-digit-digit run somewhere. -/
def hasAmountRun : List Char → Bool
  | [] => false
  | a :: rest => startsAmountRun (a :: rest) || hasAmountRun rest

/-- One iteration of BillParserB's while loop
(`BillParserB._parse_transaction_table`, src/bill_parser.py lines
260-294). -/
def stepB (cfg : ConfigB) : ConfigB :=
  match cfg.lines with
  | [] => cfg
  | l :: rest =>
    match cfg.state with
    | StateB.transaction_date =>
      { cfg with
        lines := rest
        buffer := { cfg.buffer with transaction_date := some l }
        state := StateB.posting_date }
    | StateB.posting_date =>
      let rem := l.drop 6
      { cfg with
        lines := if rem.isEmpty then rest else rem.drop 1 :: rest
        buffer := { cfg.buffer with posting_date := some (l.take 6) }
        state := StateB.transaction_description }
    | StateB.transaction_description =>
      if hasAmountRun l then
        { cfg with state := StateB.amount }
      else
        match cfg.buffer.transaction_description with
        | none =>
          { cfg with
            lines := rest
            buffer := { cfg.buffer with transaction_description := some l } }
        | some d =>
          { cfg with
            lines := rest
            buffer :=
              { cfg.buffer with
                transaction_description := some (d ++ ' ' :: l) } }
    | StateB.amount =>
      { cfg with
        lines := eorToken :: rest
        buffer := { cfg.buffer with amount := some l }
        state := StateB.end_of_row }
    | StateB.end_of_row =>
      { cfg with
        lines := rest
        acc := cfg.buffer :: cfg.acc
        buffer := {}
        state := StateB.transaction_date }

/-- Rank of a BillParserB state: every loop iteration that does not
shorten the line list strictly lowers the rank. -/
def rankB : StateB → Nat
  | StateB.transaction_date => 4
  | StateB.posting_date => 3
  | StateB.transaction_description => 2
  | StateB.amount => 1
  | StateB.end_of_row => 0

/-- Termination measure of BillParserB's loop. -/
def measureB (cfg : ConfigB) : Nat := 7 * cfg.lines.length + rankB cfg.state

/-- Fuel-bounded iteration of `stepB`, stopping at the loop guard. -/
def iterB : Nat → ConfigB → ConfigB
  | 0, cfg => cfg
  | fuel + 1, cfg => if cfg.lines.isEmpty then cfg else iterB fuel (stepB cfg)

/-- Full run of BillParserB's while loop: `measureB` fuel always
suffices. -/
def runB (cfg : ConfigB) : ConfigB := iterB (measureB cfg) cfg

/-- `BillParserB._parse_transaction_table` on the line list of a table
text: drop the 6 fixed header lines, raise (`none`) when no line remains
(the unconditional `lines[0]` access would be an IndexError), pop one
further line when the extra-header signature matches, then run the state
machine; rows are returned in append order. -/
def parseLinesB (lines0 : List (List Char)) : Option (List BufferB) :=
  match lines0.drop 6 with
  | [] => none
  | l0 :: restL =>
    let lines1 :=
      if isPrefixCl "Purchases - Card #".toList l0 then restL else l0 :: restL
    some (runB { lines := lines1, state := StateB.transaction_date, buffer := {}, acc := [] }).acc.reverse

/-- `BillParserB._parse_transaction_table` on a table text. -/
def parseTableB (tabletext : List Char) : Option (List BufferB) :=
  parseLinesB (splitLines tabletext)

/-- Table text for BillParserA: 9 header lines, then one transaction row
whose description spans the two source lines "Foo" and "Bar", terminated
by the posted-date marker line. -/
def descTableTextA : List Char :=
  "h1\nh2\nh3\nh4\nh5\nh6\nh7\nh8\nh9\n1.23\n$45.67\n–\nFoo\nBar\n01-Jan-2024\n02-Jan-2024\n".toList

/-- Credit-suffix token of BillParserC: a space, a no-break space (U+00A0),
then "CR" — the Python literal `" \xa0CR"` of src/bill_parser.py line
395. -/
def crSuffix : List Char := [' ', Char.ofNat 160, 'C', 'R']

/-- Removal of every occurrence of the credit-suffix token, as Python
`x.replace(" \xa0CR", "")` does. -/
def stripCrSuffix : List Char → List Char
  | [] => []
  | c :: rest =>
    if isPrefixCl crSuffix (c :: rest) then
      match rest with
      | _ :: _ :: _ :: rest3 => stripCrSuffix rest3
      | _ => []
    else c :: stripCrSuffix rest

/-- Amount normalization of `BillParserC._pre_process_transactions`
(src/bill_parser.py lines 392-396): remove thousands separators, then, if
the credit-suffix token occurs in the result, strip it and prepend a
minus sign; otherwise leave the comma-stripped amount unchanged. -/
def normalizeAmountC (x : List Char) : List Char :=
  let y := x.filter fun c => c ≠ ','
  if containsSub crSuffix y then '-' :: stripCrSuffix y else y

/-- Character of a decimal digit (0..9). -/
def digitCharOf (k : Nat) : Char := Char.ofNat (48 + k)

/-- Last decimal digit of a number, as a character. -/
def digitChar (n : Nat) : Char := digitCharOf (n % 10)

/-- Two-digit zero-padded decimal rendering (strftime `%m`, `%d`). -/
def pad2 (n : Nat) : List Char := [digitChar (n / 10), digitChar n]

/-- Four-digit zero-padded decimal rendering (strftime `%Y`; every year a
pandas timestamp can carry has four digits). -/
def pad4 (n : Nat) : List Char :=
  [digitChar (n / 1000), digitChar (n / 100), digitChar (n / 10), digitChar n]

/-- ISO rendering `%Y-%m-%d` of a date, as
`pd.to_datetime(...).dt.strftime("%Y-%m-%d")` produces it. -/
def fmtIso (y m d : Nat) : List Char :=
  pad4 y ++ '-' :: (pad2 m ++ '-' :: pad2 d)

/-- Numeric value of a digit character. -/
def charVal (c : Char) : Nat := c.toNat - 48

/-- Days in a month under the Gregorian leap rule, used by the date
validation inside `pd.to_datetime`. -/
def daysInMonth (m y : Nat) : Nat :=
  if m = 2 then
    if y % 4 = 0 && (decide (y % 100 ≠ 0) || y % 400 = 0) then 29 else 28
  else if m = 4 || m = 6 || m = 9 || m = 11 then 30
  else 31

/-- Month number of a `%b` month abbreviation (the parse inputs are
machine-produced, so matching is exact-case). -/
def monthFromAbbrev (s : List Char) : Option Nat :=
  if s = "Jan".toList then some 1
  else if s = "Feb".toList then some 2
  else if s = "Mar".toList then some 3
  else if s = "Apr".toList then some 4
  else if s = "May".toList then some 5
  else if s = "Jun".toList then some 6
  else if s = "Jul".toList then some 7
  else if s = "Aug".toList then some 8
  else if s = "Sep".toList then some 9
  else if s = "Oct".toList then some 10
  else if s = "Nov".toList then some 11
  else if s = "Dec".toList then some 12
  else none

/-- Tail of the `%d-%b-%Y` parse after the day: a three-letter month
abbreviation, a dash, and exactly four digits ending the string, with
day-of-month validation. -/
def parseMonYear (d : Nat) (s : List Char) : Option (Nat × Nat × Nat) :=
  match s with
  | a :: b :: c :: h :: y1 :: y2 :: y3 :: y4 :: [] =>
    if h = '-' then
      match monthFromAbbrev [a, b, c] with
      | none => none
      | some m =>
        if y1.isDigit && y2.isDigit && y3.isDigit && y4.isDigit then
          let y := ((charVal y1 * 10 + charVal y2) * 10 + charVal y3) * 10 +
            charVal y4
          if 1 ≤ d ∧ d ≤ daysInMonth m y then some (d, m, y) else none
        else none
    else none
  | _ => none

/-- `pd.to_datetime(s, format="%d-%b-%Y")` (the date re-parse of
`BillParserA._pre_process_transactions`): a one- or two-digit day, a dash,
a month abbreviation, a dash and a four-digit year, consuming the whole
string; `none` models the ValueError pandas raises on a mismatch. -/
def parseDayMonAbbrevYear (s : List Char) : Option (Nat × Nat × Nat) :=
  match s with
  | c1 :: c2 :: rest =>
    if c1.isDigit then
      if c2.isDigit then
        match rest with
        | c3 :: rest2 =>
          if c3 = '-' then parseMonYear (charVal c1 * 10 + charVal c2) rest2
          else none
        | [] => none
      else if c2 = '-' then parseMonYear (charVal c1) rest
      else none
    else none
  | _ => none

/-- One BillParserA row as the post-processor sees it: the transaction
date, the free-text description, and the amount. -/
structure RowA where
  transaction_date : List Char
  description : List Char
  amount : List Char
deriving DecidableEq

/-- Amount normalization of `BillParserA._pre_process_transactions`:
remove every dollar sign and every thousands separator (two literal
pandas str.replace calls). -/
def stripAmountA (a : List Char) : List Char :=
  (a.filter fun c => c ≠ '$').filter fun c => c ≠ ','

/-- `BillParserA._pre_process_transactions` on one row (src/bill_parser.py
lines 215-222): re-parse the transaction date with format `%d-%b-%Y`,
re-render it as `%Y-%m-%d`, and strip `$` and `,` from the amount. -/
def preProcessRowA (r : RowA) : Option RowA :=
  match parseDayMonAbbrevYear r.transaction_date with
  | none => none
  | some (d, m, y) =>
    some { r with
      transaction_date := fmtIso y m d
      amount := stripAmountA r.amount }

/-- `BillParserA._pre_process_transactions` on a whole row set: the pandas
column operations apply to every row, and one failing date fails the
whole statement. -/
def preProcessRowsA (rows : List RowA) : Option (List RowA) :=
  rows.mapM preProcessRowA

/-- `BillParser._extract_transactions` (src/bill_parser.py lines 104-114),
generic over the vendor's table extractor and table parser: collect the
table texts of every transactions page in order, parse each one (a parse
error propagates), and concatenate the per-table row lists;
`pd.concat` on an empty table list raises, modelled by `none`. -/
def extractTransactions {ρ : Type} (extractor : List Char → List (List Char))
    (parse : List Char → Option (List ρ)) (pages : List (List Char)) :
    Option (List ρ) :=
  let ts := pages.flatMap extractor
  match ts.mapM parse with
  | none => none
  | some parsed => if ts.isEmpty then none else some parsed.flatten

end BillParser

namespace BillParser

theorem isPrefixCl_self_append (p t : List Char) : isPrefixCl p (p ++ t) = true := by
  induction p with
  | nil => rfl
  | cons a as ih => simp [isPrefixCl, ih]

theorem containsSub_of_isPrefixCl {pat s : List Char}
    (h : isPrefixCl pat s = true) : containsSub pat s = true := by
  cases s with
  | nil => simpa [containsSub] using h
  | cons c rest => simp [containsSub, h]

theorem mem_of_containsSub {p : Char} {ps s : List Char}
    (h : containsSub (p :: ps) s = true) : p ∈ s := by
  induction s with
  | nil => simp [containsSub, isPrefixCl] at h
  | cons c rest ih =>
    simp only [containsSub, Bool.or_eq_true] at h
    rcases h with h | h
    · simp only [isPrefixCl, Bool.and_eq_true, beq_iff_eq] at h
      exact h.1 ▸ List.mem_cons_self c rest
    · exact List.mem_cons_of_mem c (ih h)

theorem containsSub_eq_false_of_not_mem {p : Char} {ps s : List Char}
    (h : p ∉ s) : containsSub (p :: ps) s = false := by
  cases hc : containsSub (p :: ps) s with
  | false => rfl
  | true => exact absurd (mem_of_containsSub hc) h

theorem dChar_not_mem_monthAbbrev {m : Nat} (h1 : 1 ≤ m) (h2 : m ≤ 11) :
    'D' ∉ monthAbbrev m := by
  interval_cases m <;> decide

theorem containsSub_dec_mkDateB (m : Nat) (day : List Char) (h1 : 1 ≤ m) (h2 : m ≤ 12)
    (hday : ∀ c ∈ day, c.isDigit = true) :
    containsSub "Dec".toList (mkDateB m day) = decide (m = 12) := by
  rcases eq_or_ne m 12 with rfl | hm
  · have hpre : isPrefixCl "Dec".toList (mkDateB 12 day) = true := by
      have h := isPrefixCl_self_append "Dec".toList (' ' :: day)
      simpa [mkDateB, monthAbbrev] using h
    rw [containsSub_of_isPrefixCl hpre]; decide
  · have hmem : 'D' ∉ mkDateB m day := by
      intro hd
      rcases List.mem_append.1 hd with h | h
      · exact dChar_not_mem_monthAbbrev h1 (by omega) h
      · rcases List.mem_cons.1 h with h | h
        · exact absurd h (by decide)
        · have := hday 'D' h
          simp at this
    rw [show ("Dec".toList) = 'D' :: 'e' :: 'c' :: [] from rfl,
      containsSub_eq_false_of_not_mem hmem]
    simp [hm]

theorem containsSub_dec_mkDateC (m : Nat) (day : List Char) (h1 : 1 ≤ m) (h2 : m ≤ 12)
    (hday : ∀ c ∈ day, c.isDigit = true) :
    containsSub "Dec.".toList (mkDateC m day) = decide (m = 12) := by
  rcases eq_or_ne m 12 with rfl | hm
  · have heq : mkDateC 12 day = "Dec.".toList ++ ' ' :: day := rfl
    have hpre : isPrefixCl "Dec.".toList (mkDateC 12 day) = true := by
      rw [heq]; exact isPrefixCl_self_append _ _
    rw [containsSub_of_isPrefixCl hpre]; decide
  · have hmem : 'D' ∉ mkDateC m day := by
      intro hd
      rcases List.mem_append.1 hd with h | h
      · exact dChar_not_mem_monthAbbrev h1 (by omega) h
      · rcases List.mem_cons.1 h with h | h
        · exact absurd h (by decide)
        · rcases List.mem_cons.1 h with h | h
          · exact absurd h (by decide)
          · have := hday 'D' h
            simp at this
    rw [show ("Dec.".toList) = 'D' :: 'e' :: 'c' :: '.' :: [] from rfl,
      containsSub_eq_false_of_not_mem hmem]
    simp [hm]

/-- C1: when a raw transaction date lacks a year, BillParserB and
BillParserC resolve the year as the statement's reference year, except
that when the reference month is January and the transaction's month is
December the resolved year is the reference year minus one; the rule is
applied per row, so a January-statement table mixes December rows
resolved to the prior year with January rows resolved to the reference
year. -/
theorem c1_year_rollover (refM : Nat) (refY : Int) (m : Nat) (day : List Char)
    (h1 : 1 ≤ m) (h2 : m ≤ 12) (hday : ∀ c ∈ day, c.isDigit = true) :
    (resolveYearB refM refY (mkDateB m day) =
        if refM = 1 ∧ m = 12 then refY - 1 else refY) ∧
    (resolveYearC refM refY (mkDateC m day) =
        if refM = 1 ∧ m = 12 then refY - 1 else refY) ∧
    resolveYearsB 1 2024 [mkDateB 12 ['2', '8'], mkDateB 1 ['0', '3']] =
        [2023, 2024] := by
  refine ⟨?_, ?_, by decide⟩
  · rw [resolveYearB, containsSub_dec_mkDateB m day h1 h2 hday]
    by_cases hr : refM = 1 <;> by_cases hm12 : m = 12 <;> simp [hr, hm12]
  · rw [resolveYearC, containsSub_dec_mkDateC m day h1 h2 hday]
    by_cases hr : refM = 1 <;> by_cases hm12 : m = 12 <;> simp [hr, hm12]

/-- C5: for every page text and every ordered rule list, the page
classifier returns the label of the first rule (in rule-list order) whose
pattern matches the page text, returns `other` when no rule matches, and
is a total function (absence of a match is a valid outcome, not an
error). -/
theorem c5_classifier_first_match (rules : List (List Char × PageType))
    (t : List Char) :
    classifyPage rules t =
      ((rules.find? fun pr => containsSub pr.1 t).map Prod.snd).getD
        PageType.other ∧
    ((∀ pr ∈ rules, containsSub pr.1 t = false) →
      classifyPage rules t = PageType.other) := by
  constructor
  · induction rules with
    | nil => rfl
    | cons pr rest ih =>
      obtain ⟨pat, lbl⟩ := pr
      by_cases h : containsSub pat t <;>
        simp [classifyPage, List.find?, h, ih]
  · intro hall
    induction rules with
    | nil => rfl
    | cons pr rest ih =>
      obtain ⟨pat, lbl⟩ := pr
      have h0 : containsSub pat t = false := hall (pat, lbl) (by simp)
      simp only [classifyPage, h0, Bool.false_eq_true, if_false]
      exact ih fun q hq => hall q (List.mem_cons_of_mem _ hq)

/-- Witness for C5 on BillParserA's rules and a page matching no rule
(Scenario D: an unmatched page is classified `other`). -/
theorem c5_classifier_first_match_witness :
    classifyPage pageRulesA "some uninteresting page".toList = PageType.other :=
  (c5_classifier_first_match pageRulesA "some uninteresting page".toList).2
    (by decide)

/-- C10: page classification partitions its input: the three buckets are
exactly the sublists of pages classified summary, transactions and other
(so each page lands in exactly one bucket, in input order), and the bucket
sizes add up to the number of input pages. -/
theorem c10_classification_partitions (rules : List (List Char × PageType))
    (pages : List (List Char)) :
    classifyPages rules pages =
      (pages.filter (fun p => decide (classifyPage rules p = PageType.summary)),
       pages.filter (fun p => decide (classifyPage rules p = PageType.transactions)),
       pages.filter (fun p => decide (classifyPage rules p = PageType.other))) ∧
    (classifyPages rules pages).1.length +
      (classifyPages rules pages).2.1.length +
      (classifyPages rules pages).2.2.length = pages.length := by
  have key : classifyPages rules pages =
      (pages.filter (fun p => decide (classifyPage rules p = PageType.summary)),
       pages.filter (fun p => decide (classifyPage rules p = PageType.transactions)),
       pages.filter (fun p => decide (classifyPage rules p = PageType.other))) := by
    induction pages with
    | nil => rfl
    | cons p rest ih =>
      cases hp : classifyPage rules p <;>
        simp [classifyPages, hp, ih, List.filter_cons]
  refine ⟨key, ?_⟩
  rw [key]
  clear key
  dsimp only
  induction pages with
  | nil => rfl
  | cons p rest ih =>
    cases hp : classifyPage rules p <;>
      simp [List.filter_cons, hp] <;> omega

/-- C3 counterexample: BillParserA's table extractor uses a greedy
`(?s:.)*` interior, so a page containing two start-marker/end-marker pairs
yields ONE table text spanning both pairs (it even contains the first end
marker), not two separate table texts as the claim states. -/
theorem c3_greedy_counterexample :
    tabletextExtractorA pageTwoTablesA =
      ["Reward\nEarned\nX\nNew Balance – 1\nReward\nEarned\nY\n".toList] ∧
    (tabletextExtractorA pageTwoTablesA).length ≠ 2 ∧
    containsSub "New Balance".toList
      ("Reward\nEarned\nX\nNew Balance – 1\nReward\nEarned\nY\n".toList) = true := by
  refine ⟨by decide, ?_, by decide⟩
  intro h
  rw [show tabletextExtractorA pageTwoTablesA =
      ["Reward\nEarned\nX\nNew Balance – 1\nReward\nEarned\nY\n".toList]
    from by decide] at h
  simp at h

/-- C3 amended: only BillParserB's extraction pattern is non-greedy
(`.*?` under re.DOTALL) and stops at the nearest end marker, so a page
with two marker pairs yields two separate table texts; BillParserA and
BillParserC use a greedy `(?s:.)*` interior, so such a page yields a
single table text spanning both pairs. -/
theorem c3_extractor_greediness :
    tabletextExtractorB pageTwoTablesB =
      ["TRANSACTION\nDATE\nrow1\n1.23\n".toList,
       "TRANSACTION\nDATE\nrow2\n4.56\n".toList] ∧
    tabletextExtractorC pageTwoTablesC =
      ["TRANS\nDATE\nrowone\nSubtotal for a\nTRANS\nDATE\nrowtwo\n".toList] := by
  constructor <;> decide

theorem measureA_step_lt (cfg : ConfigA) (h : cfg.lines ≠ []) :
    measureA (stepA cfg) < measureA cfg := by
  obtain ⟨lines, state, buffer, acc⟩ := cfg
  cases lines with
  | nil => exact absurd rfl h
  | cons l rest =>
    cases state with
    | reward_earned => simp only [stepA, measureA, rankA, List.length_cons]; omega
    | amount => simp only [stepA, measureA, rankA, List.length_cons]; omega
    | category =>
      by_cases hc : l = "–".toList <;>
        simp only [stepA, measureA, rankA, List.length_cons, hc, ne_eq,
          not_true_eq_false, not_false_eq_true, if_true, if_false,
          ite_true, ite_false] <;> omega
    | description =>
      by_cases hm : matchPostedDateA l
      · simp only [stepA, measureA, rankA, List.length_cons, hm, if_true, ite_true]
        omega
      · cases hd : buffer.description <;>
          simp only [stepA, measureA, rankA, List.length_cons, hm, hd,
            if_false, ite_false, Bool.false_eq_true] <;> omega
    | posted_date => simp only [stepA, measureA, rankA, List.length_cons]; omega
    | transaction_date => simp only [stepA, measureA, rankA, List.length_cons]; omega
    | end_of_row => simp only [stepA, measureA, rankA, List.length_cons]; omega

theorem measureB_step_lt (cfg : ConfigB) (h : cfg.lines ≠ []) :
    measureB (stepB cfg) < measureB cfg := by
  obtain ⟨lines, state, buffer, acc⟩ := cfg
  cases lines with
  | nil => exact absurd rfl h
  | cons l rest =>
    cases state with
    | transaction_date => simp only [stepB, measureB, rankB, List.length_cons]; omega
    | posting_date =>
      by_cases hr : (l.drop 6).isEmpty <;>
        simp only [stepB, measureB, rankB, List.length_cons, hr, if_true,
          if_false, ite_true, ite_false, Bool.false_eq_true] <;> omega
    | transaction_description =>
      by_cases hm : hasAmountRun l
      · simp only [stepB, measureB, rankB, List.length_cons, hm, if_true, ite_true]
        omega
      · cases hd : buffer.transaction_description <;>
          simp only [stepB, measureB, rankB, List.length_cons, hm, hd,
            if_false, ite_false, Bool.false_eq_true] <;> omega
    | amount => simp only [stepB, measureB, rankB, List.length_cons]; omega
    | end_of_row => simp only [stepB, measureB, rankB, List.length_cons]; omega

theorem iterA_of_empty : ∀ (n : Nat) (cfg : ConfigA), cfg.lines = [] →
    iterA n cfg = cfg := by
  intro n
  induction n with
  | zero => intro cfg _; rfl
  | succ n _ => intro cfg h; simp [iterA, h]

theorem iterB_of_empty : ∀ (n : Nat) (cfg : ConfigB), cfg.lines = [] →
    iterB n cfg = cfg := by
  intro n
  induction n with
  | zero => intro cfg _; rfl
  | succ n _ => intro cfg h; simp [iterB, h]

theorem iterA_lines_nil : ∀ (n : Nat) (cfg : ConfigA), measureA cfg ≤ n →
    (iterA n cfg).lines = [] := by
  intro n
  induction n with
  | zero =>
    intro cfg h
    have hlen : cfg.lines.length = 0 := by
      unfold measureA at h; omega
    simpa [iterA] using List.length_eq_zero.mp hlen
  | succ n ih =>
    intro cfg h
    by_cases he : cfg.lines = []
    · simp [iterA, he]
    · have hlt := measureA_step_lt cfg he
      have hstep := ih (stepA cfg) (by omega)
      simpa [iterA, List.isEmpty_iff, he] using hstep

theorem iterB_lines_nil : ∀ (n : Nat) (cfg : ConfigB), measureB cfg ≤ n →
    (iterB n cfg).lines = [] := by
  intro n
  induction n with
  | zero =>
    intro cfg h
    have hlen : cfg.lines.length = 0 := by
      unfold measureB at h; omega
    simpa [iterB] using List.length_eq_zero.mp hlen
  | succ n ih =>
    intro cfg h
    by_cases he : cfg.lines = []
    · simp [iterB, he]
    · have hlt := measureB_step_lt cfg he
      have hstep := ih (stepB cfg) (by omega)
      simpa [iterB, List.isEmpty_iff, he] using hstep

theorem iterA_eq_runA : ∀ (n : Nat) (cfg : ConfigA), measureA cfg ≤ n →
    iterA n cfg = runA cfg := by
  intro n
  induction n using Nat.strong_induction_on with
  | _ n ih =>
    intro cfg h
    by_cases he : cfg.lines = []
    · rw [iterA_of_empty n cfg he, runA, iterA_of_empty _ cfg he]
    · have hpos : 1 ≤ measureA cfg := by
        have : cfg.lines.length ≠ 0 := fun h0 =>
          he (List.length_eq_zero.mp h0)
        unfold measureA; omega
      obtain ⟨n', rfl⟩ : ∃ n', n = n' + 1 := ⟨n - 1, by omega⟩
      have hlt := measureA_step_lt cfg he
      have h1 : iterA (n' + 1) cfg = iterA n' (stepA cfg) := by
        simp [iterA, List.isEmpty_iff, he]
      obtain ⟨m', hm'⟩ : ∃ m', measureA cfg = m' + 1 :=
        ⟨measureA cfg - 1, by omega⟩
      have h2 : runA cfg = iterA m' (stepA cfg) := by
        rw [runA, hm']; simp [iterA, List.isEmpty_iff, he]
      rw [h1, h2, ih n' (by omega) (stepA cfg) (by omega),
        ih m' (by omega) (stepA cfg) (by omega)]

theorem iterB_eq_runB : ∀ (n : Nat) (cfg : ConfigB), measureB cfg ≤ n →
    iterB n cfg = runB cfg := by
  intro n
  induction n using Nat.strong_induction_on with
  | _ n ih =>
    intro cfg h
    by_cases he : cfg.lines = []
    · rw [iterB_of_empty n cfg he, runB, iterB_of_empty _ cfg he]
    · have hpos : 1 ≤ measureB cfg := by
        have : cfg.lines.length ≠ 0 := fun h0 =>
          he (List.length_eq_zero.mp h0)
        unfold measureB; omega
      obtain ⟨n', rfl⟩ : ∃ n', n = n' + 1 := ⟨n - 1, by omega⟩
      have hlt := measureB_step_lt cfg he
      have h1 : iterB (n' + 1) cfg = iterB n' (stepB cfg) := by
        simp [iterB, List.isEmpty_iff, he]
      obtain ⟨m', hm'⟩ : ∃ m', measureB cfg = m' + 1 :=
        ⟨measureB cfg - 1, by omega⟩
      have h2 : runB cfg = iterB m' (stepB cfg) := by
        rw [runB, hm']; simp [iterB, List.isEmpty_iff, he]
      rw [h1, h2, ih n' (by omega) (stepB cfg) (by omega),
        ih m' (by omega) (stepB cfg) (by omega)]

theorem runA_of_empty (cfg : ConfigA) (h : cfg.lines = []) : runA cfg = cfg :=
  iterA_of_empty _ cfg h

theorem runB_of_empty (cfg : ConfigB) (h : cfg.lines = []) : runB cfg = cfg :=
  iterB_of_empty _ cfg h

theorem runA_step (cfg : ConfigA) (h : cfg.lines ≠ []) :
    runA cfg = runA (stepA cfg) := by
  have hlt := measureA_step_lt cfg h
  obtain ⟨m', hm'⟩ : ∃ m', measureA cfg = m' + 1 :=
    ⟨measureA cfg - 1, by omega⟩
  calc runA cfg = iterA (m' + 1) cfg := by rw [runA, hm']
  _ = iterA m' (stepA cfg) := by simp [iterA, List.isEmpty_iff, h]
  _ = runA (stepA cfg) := iterA_eq_runA m' (stepA cfg) (by omega)

theorem runB_step (cfg : ConfigB) (h : cfg.lines ≠ []) :
    runB cfg = runB (stepB cfg) := by
  have hlt := measureB_step_lt cfg h
  obtain ⟨m', hm'⟩ : ∃ m', measureB cfg = m' + 1 :=
    ⟨measureB cfg - 1, by omega⟩
  calc runB cfg = iterB (m' + 1) cfg := by rw [runB, hm']
  _ = iterB m' (stepB cfg) := by simp [iterB, List.isEmpty_iff, h]
  _ = runB (stepB cfg) := iterB_eq_runB m' (stepB cfg) (by omega)

theorem parseLinesA_none_iff (lines0 : List (List Char)) :
    parseLinesA lines0 = none ↔ lines0.length ≤ 9 := by
  unfold parseLinesA
  cases hd : lines0.drop 9 with
  | nil =>
    simp only [true_iff]
    have := List.drop_eq_nil_iff.mp hd
    omega
  | cons l0 restL =>
    constructor
    · intro hsome
      exact Option.noConfusion hsome
    · intro hle
      have h0 : lines0.drop 9 = [] := List.drop_eq_nil_iff.mpr (by omega)
      rw [h0] at hd
      exact List.noConfusion hd

theorem parseLinesB_none_iff (lines0 : List (List Char)) :
    parseLinesB lines0 = none ↔ lines0.length ≤ 6 := by
  unfold parseLinesB
  cases hd : lines0.drop 6 with
  | nil =>
    simp only [true_iff]
    have := List.drop_eq_nil_iff.mp hd
    omega
  | cons l0 restL =>
    constructor
    · intro hsome
      exact Option.noConfusion hsome
    · intro hle
      have h0 : lines0.drop 6 = [] := List.drop_eq_nil_iff.mpr (by omega)
      rw [h0] at hd
      exact List.noConfusion hd

/-- C7: the transaction-row state machines of BillParserA and BillParserB
terminate from every configuration — despite the description back-edge
that consumes no line, the optional-category branch that advances without
consuming, and the re-insertion of the one-shot end-of-row sentinel, the
loop always reaches the empty line sequence (within `measureA`/`measureB`
iterations); consequently table parsing is total on every table text
satisfying the vendor's header-line precondition. -/
theorem c7_loop_terminates :
    (∀ cfg : ConfigA, (runA cfg).lines = []) ∧
    (∀ cfg : ConfigB, (runB cfg).lines = []) ∧
    (∀ t : List Char, 9 < (splitLines t).length → (parseTableA t).isSome = true) ∧
    (∀ t : List Char, 6 < (splitLines t).length → (parseTableB t).isSome = true) := by
  refine ⟨fun cfg => iterA_lines_nil _ cfg le_rfl,
    fun cfg => iterB_lines_nil _ cfg le_rfl, fun t ht => ?_, fun t ht => ?_⟩
  · rcases ho : parseTableA t with _ | rows
    · have := (parseLinesA_none_iff (splitLines t)).mp ho
      omega
    · rfl
  · rcases ho : parseTableB t with _ | rows
    · have := (parseLinesB_none_iff (splitLines t)).mp ho
      omega
    · rfl

/-- Witness for C7 on concrete table texts with more lines than the header
counts. -/
theorem c7_loop_terminates_witness :
    (parseTableA "a\nb\nc\nd\ne\nf\ng\nh\ni\nj\n".toList).isSome = true ∧
    (parseTableB "a\nb\nc\nd\ne\nf\ng\n".toList).isSome = true :=
  ⟨c7_loop_terminates.2.2.1 "a\nb\nc\nd\ne\nf\ng\nh\ni\nj\n".toList (by decide),
   c7_loop_terminates.2.2.2 "a\nb\nc\nd\ne\nf\ng\n".toList (by decide)⟩

/-- C9: parsing a transaction table raises (`none`) exactly when the
table text has at most as many lines as the vendor's fixed header count
(9 for BillParserA, 6 for BillParserB): after discarding the header
lines, the unconditional read of the first remaining line (the
extra-header test) is an IndexError on an empty remainder; with strictly
more lines the parse returns a row list. -/
theorem c9_header_index_error :
    (∀ t : List Char, parseTableA t = none ↔ (splitLines t).length ≤ 9) ∧
    (∀ t : List Char, parseTableB t = none ↔ (splitLines t).length ≤ 6) :=
  ⟨fun t => parseLinesA_none_iff (splitLines t),
   fun t => parseLinesB_none_iff (splitLines t)⟩

/-- Witness for C9: a 9-line table text makes BillParserA's parse raise,
and a 6-line one makes BillParserB's parse raise. -/
theorem c9_header_index_error_witness :
    parseTableA "a\nb\nc\nd\ne\nf\ng\nh\ni\n".toList = none ∧
    parseTableB "a\nb\nc\nd\ne\nf\n".toList = none :=
  ⟨(c9_header_index_error.1 "a\nb\nc\nd\ne\nf\ng\nh\ni\n".toList).mpr (by decide),
   (c9_header_index_error.2 "a\nb\nc\nd\ne\nf\n".toList).mpr (by decide)⟩

/-- C2 counterexample: BillParserA's description state concatenates
consecutive description source lines with NO separator
(`buffer["description"] += lines.pop(0)`, src/bill_parser.py line 198):
the two-line description "Foo", "Bar" is joined to the single field
"FooBar", not "Foo Bar", refuting the single-space-separator claim for
"every vendor parser's description state". -/
theorem c2_no_separator_counterexample :
    (parseTableA descTableTextA).map (List.map fun r => r.description) =
      some [some "FooBar".toList] ∧
    "FooBar".toList ≠ "Foo Bar".toList := by
  constructor <;> decide

/-- C2 amended: the state machines join a multi-line description into one
field and never include the next-field marker line in it; BillParserB
joins consecutive source lines with a single space, while BillParserA
concatenates them with no separator.  Stated over arbitrary description
line contents that do not match the respective next-field markers. -/
theorem c2_description_joining (d1 d2 d3 e1 e2 : List Char)
    (hb1 : hasAmountRun d1 = false) (hb2 : hasAmountRun d2 = false)
    (hb3 : hasAmountRun d3 = false)
    (ha1 : matchPostedDateA e1 = false) (ha2 : matchPostedDateA e2 = false)
    (hne : e1 ≠ ['–']) :
    parseLinesB [['h'], ['h'], ['h'], ['h'], ['h'], ['h'],
        ['J', 'a', 'n', ' ', '0', '5'], ['J', 'a', 'n', ' ', '0', '6'],
        d1, d2, d3, ['1', '2', '.', '3', '4']] =
      some [{ transaction_date := some ['J', 'a', 'n', ' ', '0', '5'],
              posting_date := some ['J', 'a', 'n', ' ', '0', '6'],
              transaction_description := some (d1 ++ ' ' :: (d2 ++ ' ' :: d3)),
              amount := some ['1', '2', '.', '3', '4'] }] ∧
    parseLinesA [['h'], ['h'], ['h'], ['h'], ['h'], ['h'], ['h'], ['h'], ['h'],
        ['1', '.', '2', '3'], ['$', '4', '5'], e1, e2,
        ['0', '1', '-', 'J', 'a', 'n', '-', '2', '0', '2', '4'],
        ['0', '2', '-', 'J', 'a', 'n', '-', '2', '0', '2', '4']] =
      some [{ reward_earned := some ['1', '.', '2', '3'],
              amount := some ['$', '4', '5'],
              category := some [],
              description := some (e1 ++ e2),
              posted_date := some ['0', '1', '-', 'J', 'a', 'n', '-', '2', '0', '2', '4'],
              transaction_date := some ['0', '2', '-', 'J', 'a', 'n', '-', '2', '0', '2', '4'] }] := by
  constructor
  · have hamt : hasAmountRun ['1', '2', '.', '3', '4'] = true := by decide
    simp [parseLinesB, isPrefixCl, runB_step, runB_of_empty, stepB,
      hb1, hb2, hb3, hamt]
  · have hmk :
        matchPostedDateA ['0', '1', '-', 'J', 'a', 'n', '-', '2', '0', '2', '4'] = true := by
      decide
    simp [parseLinesA, runA_step, runA_of_empty, stepA, ha1, ha2, hne, hmk]

/-- Witness for C2's amended statement at concrete description lines. -/
theorem c2_description_joining_witness :
    parseLinesB [['h'], ['h'], ['h'], ['h'], ['h'], ['h'],
        ['J', 'a', 'n', ' ', '0', '5'], ['J', 'a', 'n', ' ', '0', '6'],
        ['S', 't', 'o', 'r', 'e'], ['N', 'a', 'm', 'e'], ['X'],
        ['1', '2', '.', '3', '4']] =
      some [{ transaction_date := some ['J', 'a', 'n', ' ', '0', '5'],
              posting_date := some ['J', 'a', 'n', ' ', '0', '6'],
              transaction_description :=
                some ['S', 't', 'o', 'r', 'e', ' ', 'N', 'a', 'm', 'e', ' ', 'X'],
              amount := some ['1', '2', '.', '3', '4'] }] := by
  have h := (c2_description_joining ['S', 't', 'o', 'r', 'e'] ['N', 'a', 'm', 'e']
    ['X'] ['F', 'o', 'o'] ['B', 'a', 'r'] (by decide) (by decide) (by decide)
    (by decide) (by decide) (by decide)).1
  simpa using h

/-- C4 counterexample: BillParserC's credit-suffix token is
`" \xa0CR"` (space, no-break space, CR), so normalizing the raw amount
"45.67 CR" — amount, one plain space, "CR" — does NOT strip the suffix or
prepend a minus sign: the string comes back unchanged. -/
theorem c4_plain_space_counterexample :
    normalizeAmountC "45.67 CR".toList = "45.67 CR".toList ∧
    normalizeAmountC "45.67 CR".toList ≠ "-45.67".toList := by
  constructor <;> decide

/-- C4 amended: the credit suffix BillParserC strips is the token
space + no-break-space + "CR": normalizing "45.67 \xa0CR" yields
"-45.67"; normalization strips thousands separators; and every amount in
which the credit-suffix token does not occur is unchanged beyond
separator stripping. -/
theorem c4_credit_suffix_normalization (x : List Char)
    (h : containsSub crSuffix (x.filter fun c => c ≠ ',') = false) :
    normalizeAmountC ("45.67 ".toList ++ [Char.ofNat 160, 'C', 'R']) =
      '-' :: "45.67".toList ∧
    normalizeAmountC "1,234.56".toList = "1234.56".toList ∧
    normalizeAmountC x = x.filter fun c => c ≠ ',' := by
  refine ⟨by decide, by decide, ?_⟩
  simp only [ne_eq, decide_not] at h ⊢
  simp [normalizeAmountC, h]

/-- Witness for C4's amended statement on a suffix-free amount. -/
theorem c4_credit_suffix_normalization_witness :
    normalizeAmountC "12.34".toList = "12.34".toList := by
  have h := (c4_credit_suffix_normalization "12.34".toList (by decide)).2.2
  rw [h]; decide

theorem digitCharOf_lt_isDigit : ∀ k, k < 10 → (digitCharOf k).isDigit = true := by
  decide

theorem digitChar_isDigit (n : Nat) : (digitChar n).isDigit = true :=
  digitCharOf_lt_isDigit _ (Nat.mod_lt _ (by norm_num))

theorem digitCharOf_lt_ne_dash : ∀ k, k < 10 → digitCharOf k ≠ '-' := by
  decide

theorem digitChar_ne_dash (n : Nat) : digitChar n ≠ '-' :=
  digitCharOf_lt_ne_dash _ (Nat.mod_lt _ (by norm_num))

theorem parse_fmtIso_none (y m d : Nat) :
    parseDayMonAbbrevYear (fmtIso y m d) = none := by
  simp [fmtIso, pad4, pad2, parseDayMonAbbrevYear, digitChar_isDigit,
    digitChar_ne_dash]

theorem preProcessRowA_twice (r r' : RowA) (h : preProcessRowA r = some r') :
    preProcessRowA r' = none := by
  rw [preProcessRowA] at h
  cases hp : parseDayMonAbbrevYear r.transaction_date with
  | none => rw [hp] at h; exact Option.noConfusion h
  | some t =>
    obtain ⟨d, m, y⟩ := t
    rw [hp] at h
    have hr' := Option.some.inj h
    rw [preProcessRowA, ← hr']
    simp [parse_fmtIso_none]

theorem stripAmountA_idem (a : List Char) :
    stripAmountA (stripAmountA a) = stripAmountA a := by
  induction a with
  | nil => rfl
  | cons c rest ih =>
    by_cases h1 : c = '$' <;> by_cases h2 : c = ',' <;>
      simp [stripAmountA, List.filter_cons, h1, h2] at ih ⊢ <;>
      simp [ih]

/-- C6 counterexample: BillParserA's post-processor applied to its own
output fails instead of returning it unchanged: the normalized date
"2024-01-15" does not fit the re-parse format `%d-%b-%Y`, so the second
run raises (`none`). -/
theorem c6_second_run_fails_counterexample :
    preProcessRowsA
        [⟨"15-Jan-2024".toList, "Desc".toList, "$1,234.56".toList⟩] =
      some [⟨"2024-01-15".toList, "Desc".toList, "1234.56".toList⟩] ∧
    preProcessRowsA
        [⟨"2024-01-15".toList, "Desc".toList, "1234.56".toList⟩] = none := by
  constructor <;> decide

/-- C6 amended: the Row Post-Processor of BillParserA is NOT idempotent:
whenever one run succeeds, running it again on the produced row fails
(the `%Y-%m-%d` output never re-parses under `%d-%b-%Y`), and likewise a
second run on any nonempty successfully-processed row set fails; only the
amount-stripping step is idempotent. -/
theorem c6_not_idempotent :
    (∀ r r' : RowA, preProcessRowA r = some r' → preProcessRowA r' = none) ∧
    (∀ rows rows' : List RowA, preProcessRowsA rows = some rows' →
      rows' ≠ [] → preProcessRowsA rows' = none) ∧
    (∀ a : List Char, stripAmountA (stripAmountA a) = stripAmountA a) := by
  refine ⟨preProcessRowA_twice, ?_, stripAmountA_idem⟩
  intro rows rows' hrows hne
  cases rows with
  | nil =>
    rw [preProcessRowsA, List.mapM_nil] at hrows
    exact absurd (Option.some.inj hrows).symm hne
  | cons r rs =>
    rw [preProcessRowsA, List.mapM_cons] at hrows
    cases hr : preProcessRowA r with
    | none => rw [hr] at hrows; simp at hrows
    | some y =>
      rw [hr] at hrows
      cases hrs : rs.mapM preProcessRowA with
      | none => rw [hrs] at hrows; simp at hrows
      | some ys =>
        rw [hrs] at hrows
        simp only [Option.bind_eq_bind, Option.some_bind, Option.pure_def,
          Option.some.injEq] at hrows
        rw [← hrows, preProcessRowsA, List.mapM_cons,
          preProcessRowA_twice r y hr]
        simp

/-- Witness for C6's amended statement at the concrete normalized row. -/
theorem c6_not_idempotent_witness :
    preProcessRowA ⟨"2024-01-15".toList, "Desc".toList, "1234.56".toList⟩ =
      none :=
  c6_not_idempotent.1
    ⟨"15-Jan-2024".toList, "Desc".toList, "$1,234.56".toList⟩
    ⟨"2024-01-15".toList, "Desc".toList, "1234.56".toList⟩ (by decide)

/-- C8: when every transactions page yields zero extracted table texts —
including the case of zero transactions pages — extraction fails
(`pd.concat` raises on an empty list of tables) rather than producing an
empty transaction set. -/
theorem c8_empty_extraction_raises {ρ : Type}
    (extractor : List Char → List (List Char))
    (parse : List Char → Option (List ρ)) (pages : List (List Char))
    (h : ∀ p ∈ pages, extractor p = []) :
    extractTransactions extractor parse pages = none := by
  have hts : pages.flatMap extractor = [] := by
    induction pages with
    | nil => rfl
    | cons p rest ih =>
      rw [List.flatMap_cons, h p (by simp),
        ih fun q hq => h q (List.mem_cons_of_mem _ hq)]
      rfl
  simp only [extractTransactions, hts, List.isEmpty_nil, if_true]
  split <;> rfl

/-- Witness for C8: BillParserA's extractor finds no table on a
marker-free page, and construction fails. -/
theorem c8_empty_extraction_raises_witness :
    extractTransactions tabletextExtractorA parseTableA
      ["no tables on this page".toList] = none :=
  c8_empty_extraction_raises tabletextExtractorA parseTableA
    ["no tables on this page".toList] (by decide)

/-- Witness for C1 at the concrete year-boundary input of Scenario C. -/
theorem c1_year_rollover_witness :
    resolveYearB 1 2024 (mkDateB 12 ['2', '8']) = 2023 := by
  simpa using
    (c1_year_rollover 1 2024 12 ['2', '8'] (by decide) (by decide) (by decide)).1

end BillParser
